import Mathlib

/-!
Shallow embedding of the WebSocket connection-manager component of the
skillSync API gateway (Go package `websocket`, file `manager.go`).

The Go code keeps a map `clients : map[string]*Client`, three channels
feeding a single coordination goroutine (`register`, `unregister`,
`broadcast`), and a `sync.RWMutex`.  The coordination loop (`Manager.Start`)
and the direct methods (`SendToUser`, `GetConnectedUsers`,
`IsUserConnected`) are embedded here as pure state transformers over an
explicit heap of client objects:

* a Go `*Client` pointer is modelled as a `Nat` reference into a heap
  (an association list `List (Nat × ClientObj)`);
* the client's `Send chan []byte` is modelled as a `Chan`: a capacity,
  a FIFO list of pending serialized messages, and a closed flag.  Go's
  channel semantics are kept: `close` of an already-closed channel and a
  send on a closed channel both panic, which the embedding signals by
  returning `none`;
* the membership map is an association list `List (String × Nat)` from
  `Client.ID` to the pointer of the registered client;
* `json.Marshal` of a `Message` (a struct of strings and a string map)
  cannot fail in Go, so it is embedded as a total function producing a
  JSON string; the `err != nil` branches of the source are dead and are
  noted where they occur.

Since the mutex serializes every critical section, the sequential
interleaving semantics used here (one operation runs to completion at a
time) is faithful to the atomicity the locks provide.
-/

set_option autoImplicit false

namespace SkillSync

/-- A bounded Go channel of serialized messages (`Send chan []byte`),
created by the collaborator as `make(chan []byte, cap)`. -/
structure Chan where
  cap : Nat
  buf : List String
  isClosed : Bool
deriving Repr, DecidableEq

/-- The heap contents of a Go `*Client`: the fields of `websocket.Client`
that the manager reads (`ID`, `Role`) together with the state of its
`Send` channel.  `Conn`, `Manager` and `UserInfo` are never consulted by
the registry code and are omitted. -/
structure ClientObj where
  ID : String
  Role : String
  Send : Chan
deriving Repr, DecidableEq

/-- Embeds `websocket.Message`: a struct of string fields plus a string map,
all of which `json.Marshal` serializes without error.  The Go field
`Type` is renamed `MsgType` because `Type` is a Lean keyword. -/
structure Message where
  MsgType : String
  SenderID : String
  ReceiverID : String
  ConversationID : String
  Content : String
  SenderRole : String
  SentTime : String
  Metadata : List (String × String)
deriving Repr, DecidableEq

/-- The manager state: the membership map `clients : map[string]*Client`
(as an association list keyed by `Client.ID`, values are heap refs), and
the heap of client objects reachable from those pointers. -/
structure Manager where
  clients : List (String × Nat)
  heap : List (Nat × ClientObj)
deriving Repr, DecidableEq

/-- Go map lookup `m[k]` on the association list. -/
def lookupA (l : List (String × Nat)) (k : String) : Option Nat :=
  match l with
  | [] => none
  | (k2, v) :: rest => if k2 = k then some v else lookupA rest k

/-- Go map store `m[k] = v`: replace the binding if the key is present,
otherwise append it. -/
def insertA (l : List (String × Nat)) (k : String) (v : Nat) : List (String × Nat) :=
  match l with
  | [] => [(k, v)]
  | (k2, v2) :: rest => if k2 = k then (k, v) :: rest else (k2, v2) :: insertA rest k v

/-- Go map `delete(m, k)`. -/
def eraseA (l : List (String × Nat)) (k : String) : List (String × Nat) :=
  match l with
  | [] => []
  | (k2, v2) :: rest => if k2 = k then rest else (k2, v2) :: eraseA rest k

/-- Heap read through a `*Client` pointer. -/
def hlookup (h : List (Nat × ClientObj)) (r : Nat) : Option ClientObj :=
  match h with
  | [] => none
  | (r2, c) :: rest => if r2 = r then some c else hlookup rest r

/-- Heap write through a `*Client` pointer. -/
def hupdate (h : List (Nat × ClientObj)) (r : Nat) (c : ClientObj) :
    List (Nat × ClientObj) :=
  match h with
  | [] => []
  | (r2, c2) :: rest => if r2 = r then (r, c) :: rest else (r2, c2) :: hupdate rest r c

/-- One JSON string field `"name":"value"` (value serialized verbatim;
escaping inside values is irrelevant to every property proved here). -/
def jsonField (name value : String) : String :=
  "\"" ++ name ++ "\":\"" ++ value ++ "\""

/-- The `metadata` object, omitted when empty (`json:"metadata,omitempty"`). -/
def jsonMetadata (l : List (String × String)) : String :=
  match l with
  | [] => ""
  | _ => ",\"metadata\":\x7b" ++
      String.intercalate "," (l.map fun p => jsonField p.1 p.2) ++ "\x7d"

/-- Models `json.Marshal(message)`: total for this struct of strings, so the
source's marshal-error branches are unreachable. -/
def jsonMarshal (m : Message) : String :=
  "\x7b" ++ jsonField "type" m.MsgType ++ "," ++
  jsonField "sender_id" m.SenderID ++ "," ++
  jsonField "receiver_id" m.ReceiverID ++ "," ++
  jsonField "conversation_id" m.ConversationID ++ "," ++
  jsonField "content" m.Content ++ "," ++
  jsonField "sender_role" m.SenderRole ++ "," ++
  jsonField "sent_time" m.SentTime ++
  jsonMetadata m.Metadata ++ "\x7d"

/-- Go `close(ch)`: panics (`none`) if the channel is already closed. -/
def closeChan (ch : Chan) : Option Chan :=
  if ch.isClosed then none else some { ch with isClosed := true }

/-- The heap object after a successful enqueue of `x` on `c`'s channel
(abbreviates the record update produced by a delivered send). -/
def pushMsg (c : ClientObj) (x : String) : ClientObj :=
  { c with Send := { c.Send with buf := c.Send.buf ++ [x] } }

/-- The non-blocking send `select { case ch <- x: ... default: ... }`
with no ready receiver (the drain goroutine is the collaborator's and is
not part of this core): succeeds iff the buffer has room, drops (returns
`false`) when full, and panics (`none`) on a closed channel, exactly as a
Go send on a closed channel does even inside a `select`. -/
def trySend (ch : Chan) (x : String) : Option (Chan × Bool) :=
  if ch.isClosed then none
  else if ch.buf.length < ch.cap then some ({ ch with buf := ch.buf ++ [x] }, true)
  else some (ch, false)

/-- The three conditions `SendToUser` distinguishes in its log output:
`"Direct message sent to client %s"`, `"Client %s not found or offline"`,
`"Failed to send message to client %s, channel full"`. -/
inductive SendOutcome where
  | delivered
  | notConnected
  | dropped
deriving Repr, DecidableEq

/-- Embeds `Manager.SendToUser`, instrumented with the condition its log line
reports.  The Go function itself returns nothing; the `SendOutcome`
component classifies the log statement executed, and
`sendToUserGo` below projects away this instrumentation to give exactly
the caller-visible behavior.  Returns `none` on a Go panic (send on a
closed channel, or a dangling pointer in the map — neither reachable
from a well-formed state).  The marshal-error early return is dead code
because `jsonMarshal` is total. -/
def sendToUser (m : Manager) (userID : String) (message : Message) :
    Option (Manager × SendOutcome) :=
  match lookupA m.clients userID with
  | none => some (m, SendOutcome.notConnected)
  | some r =>
    match hlookup m.heap r with
    | none => none
    | some c =>
      match trySend c.Send (jsonMarshal message) with
      | none => none
      | some (ch, true) =>
          some ({ m with heap := hupdate m.heap r { c with Send := ch } },
                SendOutcome.delivered)
      | some (_, false) => some (m, SendOutcome.dropped)

/-- Exactly what a caller of the void Go method `SendToUser` gets back:
the updated state and no result value. -/
def sendToUserGo (m : Manager) (userID : String) (message : Message) :
    Option Manager :=
  (sendToUser m userID message).map Prod.fst

/-- The `case client := <-m.register` arm of `Manager.Start`:
`m.clients[client.ID] = client` — the map slot is overwritten and
nothing else happens (in particular no channel is closed). -/
def registerStep (m : Manager) (r : Nat) : Option Manager :=
  match hlookup m.heap r with
  | none => none
  | some c => some { m with clients := insertA m.clients c.ID r }

/-- The `case client := <-m.unregister` arm of `Manager.Start`:
`if _, ok := m.clients[client.ID]; ok { delete(m.clients, client.ID);
close(client.Send) }`.  The guard tests only that SOME entry exists under
`client.ID`; the deleted entry may be a different handle, and the channel
closed is always the ARGUMENT's.  `close` panics if that channel is
already closed. -/
def unregisterStep (m : Manager) (r : Nat) : Option Manager :=
  match hlookup m.heap r with
  | none => none
  | some c =>
    match lookupA m.clients c.ID with
    | none => some m
    | some _ =>
      match closeChan c.Send with
      | none => none
      | some ch =>
          some { clients := eraseA m.clients c.ID,
                 heap := hupdate m.heap r { c with Send := ch } }

/-- The `case message := <-m.broadcast` arm of `Manager.Start`: if
`message.ReceiverID` is empty nothing happens; otherwise the receiver is
looked up, the message marshalled (the error branch being dead), and a
non-blocking send attempted.  On the `default` branch (full buffer) the
client's channel is CLOSED and the client deleted from the map
(`"removed due to blocked channel"`) — unlike `SendToUser`, which only
logs the drop. -/
def broadcastStep (m : Manager) (message : Message) : Option Manager :=
  if message.ReceiverID = "" then some m
  else
    match lookupA m.clients message.ReceiverID with
    | none => some m
    | some r =>
      match hlookup m.heap r with
      | none => none
      | some c =>
        match trySend c.Send (jsonMarshal message) with
        | none => none
        | some (ch, true) => some { m with heap := hupdate m.heap r { c with Send := ch } }
        | some (_, false) =>
          match closeChan c.Send with
          | none => none
          | some ch2 =>
              some { clients := eraseA m.clients c.ID,
                     heap := hupdate m.heap r { c with Send := ch2 } }

/-- Embeds `Manager.GetConnectedUsers`: the keys of the membership map. -/
def getConnectedUsers (m : Manager) : List String :=
  m.clients.map Prod.fst

/-- Embeds `Manager.IsUserConnected`. -/
def isUserConnected (m : Manager) (userID : String) : Bool :=
  (lookupA m.clients userID).isSome

/-- Modelled from the spec: the collaborator that constructs a Connection
Handle (the HTTP upgrade handler, not present under src/) builds
`&Client{ID: id, Role: role, Send: make(chan []byte, cap)}` — a fresh
heap object whose outbound buffer is a bounded queue of the stated
capacity, empty and open.  A fresh allocation never reuses a live
pointer, so reusing a ref is a `none`. -/
def newClientStep (m : Manager) (r : Nat) (id role : String) (cap : Nat) :
    Option Manager :=
  match hlookup m.heap r with
  | some _ => none
  | none =>
      some { m with heap :=
        m.heap ++ [(r, { ID := id, Role := role,
                         Send := { cap := cap, buf := [], isClosed := false } })] }

/-- An operation submitted to the manager: the three channel arms of the
coordination loop, the direct `SendToUser`, and handle construction by
the collaborator. -/
inductive Op where
  | newClient (r : Nat) (id role : String) (cap : Nat)
  | register (r : Nat)
  | unregister (r : Nat)
  | broadcast (message : Message)
  | send (userID : String) (message : Message)
deriving Repr, DecidableEq

/-- One serialized step of the system (the mutex and the single
coordination goroutine serialize all of these in the source). -/
def step (m : Manager) (op : Op) : Option Manager :=
  match op with
  | Op.newClient r id role cap => newClientStep m r id role cap
  | Op.register r => registerStep m r
  | Op.unregister r => unregisterStep m r
  | Op.broadcast message => broadcastStep m message
  | Op.send userID message => sendToUserGo m userID message

/-- Run a sequence of operations; `none` as soon as any step panics. -/
def runOps (m : Manager) (ops : List Op) : Option Manager :=
  match ops with
  | [] => some m
  | op :: rest =>
    match step m op with
    | none => none
    | some m2 => runOps m2 rest

/-- The empty manager produced by `NewManager`. -/
def initManager : Manager := { clients := [], heap := [] }

/-- Consecutive `SendToUser` calls by one caller, collecting the
per-message outcomes in order. -/
def runSends (m : Manager) (userID : String) (msgs : List Message) :
    Option (Manager × List SendOutcome) :=
  match msgs with
  | [] => some (m, [])
  | msg :: rest =>
    match sendToUser m userID msg with
    | none => none
    | some (m2, o) =>
      match runSends m2 userID rest with
      | none => none
      | some (m3, os) => some (m3, o :: os)

/-- The closed flag of the channel of the heap object at `r`. -/
def chanClosedAt (m : Manager) (r : Nat) : Option Bool :=
  (hlookup m.heap r).map fun c => c.Send.isClosed

/-- The buffer contents of the channel of the heap object at `r`. -/
def chanBufAt (m : Manager) (r : Nat) : Option (List String) :=
  (hlookup m.heap r).map fun c => c.Send.buf

/-- Well-formed manager states: map keys are unique (it embeds a Go map),
every registered pointer is live, the stored object's `ID` is its map key
(the register arm always keys by `client.ID`), and every registered
channel is open.  These hold in the running system whenever the
collaborators register only freshly constructed handles and unregister a
handle only while it is the current occupant of its slot. -/
def WF (m : Manager) : Prop :=
  (m.clients.map Prod.fst).Nodup ∧
  ∀ p ∈ m.clients, ∃ c, hlookup m.heap p.2 = some c ∧ c.ID = p.1 ∧
    c.Send.isClosed = false

/-- Discipline the spec expects of the collaborators for one operation:
constructed handles use fresh pointers, only open (freshly built) handles
are registered, and a handle is unregistered only while it is the current
occupant of its user's slot (or the slot is empty).  Delivery operations
need no side condition.  The stale-unregister counterexample below is
precisely an undisciplined step. -/
def DisciplinedStep (m : Manager) (op : Op) : Prop :=
  match op with
  | Op.newClient r _ _ _ => hlookup m.heap r = none
  | Op.register r => ∃ c, hlookup m.heap r = some c ∧ c.Send.isClosed = false
  | Op.unregister r => ∃ c, hlookup m.heap r = some c ∧
      (lookupA m.clients c.ID = none ∨ lookupA m.clients c.ID = some r)
  | Op.broadcast _ => True
  | Op.send _ _ => True

/-! ### Concrete fixtures for the scenario theorems -/

/-- A concrete well-formed chat message addressed to `"u1"`. -/
def msgA : Message :=
  { MsgType := "chat", SenderID := "e1", ReceiverID := "u1",
    ConversationID := "conv1", Content := "hello", SenderRole := "employer",
    SentTime := "2025-01-01T00:00:00Z", Metadata := [] }

/-- A second message to the same receiver. -/
def msgB : Message := { msgA with Content := "second" }

/-- First handle for `"u1"` (pointer 0 in the concrete runs). -/
def clientA : ClientObj :=
  { ID := "u1", Role := "candidate", Send := { cap := 2, buf := [], isClosed := false } }

/-- A distinct second handle for the same `"u1"` (pointer 1): the
duplicate login. -/
def clientB : ClientObj :=
  { ID := "u1", Role := "employer", Send := { cap := 2, buf := [], isClosed := false } }

/-- A state with `clientA` registered for `"u1"`: reachable by
`[newClient 0 "u1" "candidate" 2, register 0]`. -/
def M9 : Manager := { clients := [("u1", 0)], heap := [(0, clientA)] }

/-- Two constructed handles for `"u1"`, none registered yet. -/
def MC1 : Manager := { clients := [], heap := [(0, clientA), (1, clientB)] }

/-- After the duplicate login: both handles constructed, `clientB`
(pointer 1) now occupies the `"u1"` slot. -/
def MC2 : Manager := { clients := [("u1", 1)], heap := [(0, clientA), (1, clientB)] }

/-- A connected `"u1"` whose capacity-1 buffer is already full and whose
consumer is not draining. -/
def MFull : Manager :=
  { clients := [("u1", 0)],
    heap := [(0, { ID := "u1", Role := "candidate",
                   Send := { cap := 1, buf := [jsonMarshal msgA], isClosed := false } })] }

/-- A connected `"u1"` with an empty capacity-1 buffer. -/
def MCap1 : Manager :=
  { clients := [("u1", 0)],
    heap := [(0, { ID := "u1", Role := "candidate",
                   Send := { cap := 1, buf := [], isClosed := false } })] }

/-- Duplicate login sequence: construct two handles for `"u1"` and
register both in order. -/
def opsC1 : List Op :=
  [Op.newClient 0 "u1" "candidate" 2, Op.newClient 1 "u1" "employer" 2,
   Op.register 0, Op.register 1]

/-- Duplicate login followed by a stale unregister of the first handle. -/
def opsC2 : List Op :=
  [Op.newClient 0 "u1" "candidate" 2, Op.newClient 1 "u1" "employer" 2,
   Op.register 0, Op.register 1, Op.unregister 0]

/-- Fill a capacity-1 buffer of a connected `"u1"` with one message. -/
def opsC3 : List Op :=
  [Op.newClient 0 "u1" "candidate" 1, Op.register 0, Op.send "u1" msgA]

/-- Register, unregister (closing the buffer), duplicate login by a
second handle, then a second stale unregister of the first handle. -/
def opsC5 : List Op :=
  [Op.newClient 0 "u1" "candidate" 1, Op.newClient 1 "u1" "employer" 1,
   Op.register 0, Op.unregister 0, Op.register 1, Op.unregister 0]

/-! ### Association-list and heap lemmas -/

theorem lookupA_insertA_self (l : List (String × Nat)) (k : String) (v : Nat) :
    lookupA (insertA l k v) k = some v := by
  induction l with
  | nil => simp [insertA, lookupA]
  | cons p rest ih =>
    obtain ⟨k2, v2⟩ := p
    by_cases h : k2 = k
    · simp [insertA, h, lookupA]
    · simp [insertA, h, lookupA, ih]

theorem lookupA_insertA_ne (l : List (String × Nat)) (k k2 : String) (v : Nat)
    (h : k2 ≠ k) : lookupA (insertA l k v) k2 = lookupA l k2 := by
  induction l with
  | nil => simp [insertA, lookupA, Ne.symm h]
  | cons p rest ih =>
    obtain ⟨k3, v3⟩ := p
    by_cases h3 : k3 = k
    · subst h3
      simp [insertA, lookupA, Ne.symm h]
    · by_cases h4 : k3 = k2
      · subst h4
        simp [insertA, lookupA, h3]
      · simp [insertA, lookupA, h3, h4, ih]

theorem lookupA_mem (l : List (String × Nat)) (k : String) (v : Nat)
    (h : lookupA l k = some v) : (k, v) ∈ l := by
  induction l with
  | nil => simp [lookupA] at h
  | cons p rest ih =>
    obtain ⟨k2, v2⟩ := p
    by_cases h2 : k2 = k
    · subst h2
      simp [lookupA] at h
      simp [h]
    · simp [lookupA, h2] at h
      exact List.mem_cons_of_mem _ (ih h)

theorem lookupA_mem_keys (l : List (String × Nat)) (k : String) (v : Nat)
    (h : lookupA l k = some v) : k ∈ l.map Prod.fst := by
  have := lookupA_mem l k v h
  exact List.mem_map.mpr ⟨(k, v), this, rfl⟩

theorem lookupA_none_of_not_mem_keys (l : List (String × Nat)) (k : String)
    (h : k ∉ l.map Prod.fst) : lookupA l k = none := by
  induction l with
  | nil => simp [lookupA]
  | cons p rest ih =>
    obtain ⟨k2, v2⟩ := p
    simp only [List.map_cons, List.mem_cons, not_or] at h
    simp [lookupA, Ne.symm h.1, ih h.2]

theorem keys_insertA_of_mem (l : List (String × Nat)) (k : String) (v : Nat)
    (h : k ∈ l.map Prod.fst) :
    (insertA l k v).map Prod.fst = l.map Prod.fst := by
  induction l with
  | nil => simp at h
  | cons p rest ih =>
    obtain ⟨k2, v2⟩ := p
    by_cases h2 : k2 = k
    · simp [insertA, h2]
    · simp only [List.map_cons, List.mem_cons] at h
      rcases h with h | h
      · exact absurd h.symm h2
      · simp [insertA, h2, ih h]

theorem keys_insertA_of_not_mem (l : List (String × Nat)) (k : String) (v : Nat)
    (h : k ∉ l.map Prod.fst) :
    (insertA l k v).map Prod.fst = l.map Prod.fst ++ [k] := by
  induction l with
  | nil => simp [insertA]
  | cons p rest ih =>
    obtain ⟨k2, v2⟩ := p
    simp only [List.map_cons, List.mem_cons, not_or] at h
    simp [insertA, Ne.symm h.1, ih h.2]

theorem keys_insertA_nodup (l : List (String × Nat)) (k : String) (v : Nat)
    (h : (l.map Prod.fst).Nodup) : ((insertA l k v).map Prod.fst).Nodup := by
  by_cases h2 : k ∈ l.map Prod.fst
  · rw [keys_insertA_of_mem l k v h2]; exact h
  · rw [keys_insertA_of_not_mem l k v h2]
    simp [List.nodup_append, h, h2]

theorem mem_insertA (l : List (String × Nat)) (k : String) (v : Nat)
    (p : String × Nat) (h : p ∈ insertA l k v) : p = (k, v) ∨ p ∈ l := by
  induction l with
  | nil => simp [insertA] at h; simp [h]
  | cons q rest ih =>
    obtain ⟨k2, v2⟩ := q
    by_cases h2 : k2 = k
    · simp [insertA, h2] at h
      rcases h with h | h
      · exact Or.inl h
      · exact Or.inr (List.mem_cons_of_mem _ h)
    · simp [insertA, h2] at h
      rcases h with h | h
      · exact Or.inr (by simp [h])
      · rcases ih h with h3 | h3
        · exact Or.inl h3
        · exact Or.inr (List.mem_cons_of_mem _ h3)

theorem eraseA_sublist (l : List (String × Nat)) (k : String) :
    (eraseA l k).Sublist l := by
  induction l with
  | nil => exact List.Sublist.refl _
  | cons p rest ih =>
    obtain ⟨k2, v2⟩ := p
    by_cases h : k2 = k
    · simp only [eraseA, if_pos h]
      exact List.sublist_cons_self _ _
    · simp only [eraseA, if_neg h]
      exact List.Sublist.cons₂ _ ih

theorem mem_eraseA (l : List (String × Nat)) (k : String) (p : String × Nat)
    (h : p ∈ eraseA l k) : p ∈ l :=
  (eraseA_sublist l k).mem h

theorem keys_eraseA_nodup (l : List (String × Nat)) (k : String)
    (h : (l.map Prod.fst).Nodup) : ((eraseA l k).map Prod.fst).Nodup :=
  ((eraseA_sublist l k).map Prod.fst).nodup h

theorem lookupA_eraseA_self (l : List (String × Nat)) (k : String)
    (h : (l.map Prod.fst).Nodup) : lookupA (eraseA l k) k = none := by
  induction l with
  | nil => simp [eraseA, lookupA]
  | cons p rest ih =>
    obtain ⟨k2, v2⟩ := p
    simp only [List.map_cons, List.nodup_cons] at h
    by_cases h2 : k2 = k
    · subst h2
      simp only [eraseA, if_pos rfl]
      exact lookupA_none_of_not_mem_keys rest k2 h.1
    · simp only [eraseA, if_neg h2, lookupA]
      exact ih h.2

theorem lookupA_eraseA_ne (l : List (String × Nat)) (k k2 : String)
    (h : k2 ≠ k) : lookupA (eraseA l k) k2 = lookupA l k2 := by
  induction l with
  | nil => simp [eraseA]
  | cons p rest ih =>
    obtain ⟨k3, v3⟩ := p
    by_cases h3 : k3 = k
    · subst h3
      simp [eraseA, lookupA, Ne.symm h]
    · by_cases h4 : k3 = k2
      · subst h4
        simp [eraseA, lookupA, h3]
      · simp [eraseA, lookupA, h3, h4, ih]

theorem hlookup_hupdate_self (h : List (Nat × ClientObj)) (r : Nat)
    (c0 c : ClientObj) (hr : hlookup h r = some c0) :
    hlookup (hupdate h r c) r = some c := by
  induction h with
  | nil => simp [hlookup] at hr
  | cons p rest ih =>
    obtain ⟨r2, c2⟩ := p
    by_cases h2 : r2 = r
    · simp [hupdate, h2, hlookup]
    · simp [hlookup, h2] at hr
      simp [hupdate, h2, hlookup, ih hr]

theorem hlookup_hupdate_ne (h : List (Nat × ClientObj)) (r r2 : Nat)
    (c : ClientObj) (hne : r2 ≠ r) :
    hlookup (hupdate h r c) r2 = hlookup h r2 := by
  induction h with
  | nil => simp [hupdate]
  | cons p rest ih =>
    obtain ⟨r3, c3⟩ := p
    by_cases h3 : r3 = r
    · subst h3
      simp only [hupdate, if_pos rfl, hlookup]
      rw [if_neg (Ne.symm hne), if_neg (Ne.symm hne)]
    · by_cases h4 : r3 = r2
      · subst h4
        simp [hupdate, hlookup, h3]
      · simp [hupdate, hlookup, h3, h4, ih]

theorem hlookup_append_left (h h2 : List (Nat × ClientObj)) (r : Nat)
    (c : ClientObj) (hr : hlookup h r = some c) :
    hlookup (h ++ h2) r = some c := by
  induction h with
  | nil => simp [hlookup] at hr
  | cons p rest ih =>
    obtain ⟨r2, c2⟩ := p
    by_cases h3 : r2 = r
    · simp [hlookup, h3] at hr
      simp [hlookup, h3, hr]
    · simp [hlookup, h3] at hr
      simp [hlookup, h3, ih hr]

theorem lookupA_ne_none_of_mem_keys (l : List (String × Nat)) (k : String)
    (h : k ∈ l.map Prod.fst) : lookupA l k ≠ none := by
  induction l with
  | nil => simp at h
  | cons p rest ih =>
    obtain ⟨k2, v2⟩ := p
    by_cases h2 : k2 = k
    · simp [lookupA, h2]
    · simp only [List.map_cons, List.mem_cons] at h
      rcases h with h | h
      · exact absurd h.symm h2
      · simp [lookupA, h2, ih h]

/-! ### Preservation of well-formedness by the registry's steps -/

theorem WF_hupdate (m : Manager) (r : Nat) (c c2 : ClientObj) (hwf : WF m)
    (hc : hlookup m.heap r = some c) (hid : c2.ID = c.ID)
    (hopen : c2.Send.isClosed = false) :
    WF { m with heap := hupdate m.heap r c2 } := by
  refine ⟨hwf.1, ?_⟩
  intro p hp
  obtain ⟨cp, hcp, hidp, hopenp⟩ := hwf.2 p hp
  by_cases h : p.2 = r
  · subst h
    have hcc : cp = c := Option.some.inj (hcp.symm.trans hc)
    exact ⟨c2, hlookup_hupdate_self m.heap p.2 cp c2 hcp,
      by rw [hid, ← hcc, hidp], hopen⟩
  · exact ⟨cp, by rw [hlookup_hupdate_ne m.heap r p.2 c2 h]; exact hcp, hidp, hopenp⟩

theorem WF_evict (m : Manager) (r : Nat) (c c2 : ClientObj) (hwf : WF m)
    (hc : hlookup m.heap r = some c)
    (hcur : lookupA m.clients c.ID = some r) :
    WF { clients := eraseA m.clients c.ID, heap := hupdate m.heap r c2 } := by
  refine ⟨keys_eraseA_nodup m.clients c.ID hwf.1, ?_⟩
  intro p hp
  have hpl := mem_eraseA m.clients c.ID p hp
  obtain ⟨cp, hcp, hidp, hopenp⟩ := hwf.2 p hpl
  by_cases h : p.2 = r
  · exfalso
    subst h
    have hcc : cp = c := Option.some.inj (hcp.symm.trans hc)
    have hkey : c.ID ∈ (eraseA m.clients c.ID).map Prod.fst :=
      List.mem_map.mpr ⟨p, hp, by rw [← hidp, hcc]⟩
    exact lookupA_ne_none_of_mem_keys (eraseA m.clients c.ID) c.ID hkey
      (lookupA_eraseA_self m.clients c.ID hwf.1)
  · exact ⟨cp, by rw [hlookup_hupdate_ne m.heap r p.2 c2 h]; exact hcp, hidp, hopenp⟩

/-! ### Runs of consecutive register operations -/

theorem runRegistersAux (u : String) (rs : List Nat) :
    ∀ (r0 : Nat) (m : Manager),
      (∀ r ∈ r0 :: rs, ∃ c, hlookup m.heap r = some c ∧ c.ID = u) →
      ∃ m2, runOps m ((r0 :: rs).map Op.register) = some m2 ∧
        lookupA m2.clients u = some ((r0 :: rs).getLast (List.cons_ne_nil r0 rs)) ∧
        m2.heap = m.heap := by
  induction rs with
  | nil =>
    intro r0 m hall
    obtain ⟨c, hc, hcid⟩ := hall r0 (List.mem_cons_self r0 [])
    refine ⟨{ m with clients := insertA m.clients u r0 }, ?_, ?_, rfl⟩
    · simp [runOps, step, registerStep, hc, hcid]
    · simpa using lookupA_insertA_self m.clients u r0
  | cons r1 rest ih =>
    intro r0 m hall
    obtain ⟨c, hc, hcid⟩ := hall r0 (List.mem_cons_self r0 _)
    have hall2 : ∀ r ∈ r1 :: rest,
        ∃ c2, hlookup ({ m with clients := insertA m.clients u r0 } : Manager).heap r =
          some c2 ∧ c2.ID = u :=
      fun r hr => hall r (List.mem_cons_of_mem r0 hr)
    obtain ⟨m2, hrun, hlast, hheap⟩ := ih r1 { m with clients := insertA m.clients u r0 } hall2
    refine ⟨m2, ?_, ?_, hheap⟩
    · simp only [List.map_cons, runOps, step, registerStep, hc, hcid]
      exact hrun
    · rw [hlast, List.getLast_cons (List.cons_ne_nil r1 rest)]

/-! ### Claim theorems -/

/-- C1 (amended): for a sequence of Register calls carrying handles with
the same `user_id`, exactly the most recently registered handle occupies
the registry slot for that `user_id` afterwards (and so is the one
`SendToUser` reaches, since `SendToUser` targets the slot's occupant) —
but the heap, and with it every previously registered handle's buffer,
is completely untouched: the register arm only executes
`m.clients[client.ID] = client` and closes nothing. -/
theorem C1_register_last_wins_no_close (m : Manager) (u : String)
    (rs : List Nat) (hne : rs ≠ [])
    (hall : ∀ r ∈ rs, ∃ c, hlookup m.heap r = some c ∧ c.ID = u) :
    ∃ m2, runOps m (rs.map Op.register) = some m2 ∧
      lookupA m2.clients u = some (rs.getLast hne) ∧
      m2.heap = m.heap ∧
      ∀ r2, chanClosedAt m2 r2 = chanClosedAt m r2 := by
  cases rs with
  | nil => exact absurd rfl hne
  | cons r0 rest =>
    obtain ⟨m2, h1, h2, h3⟩ := runRegistersAux u rest r0 m hall
    exact ⟨m2, h1, h2, h3, fun r2 => by simp [chanClosedAt, h3]⟩

/-- C1 witness: registering `clientA` (pointer 0) then `clientB`
(pointer 1) for `"u1"` leaves pointer 1 in the slot and the heap
unchanged. -/
theorem C1_witness :
    ∃ m2, runOps MC1 ([0, 1].map Op.register) = some m2 ∧
      lookupA m2.clients "u1" = some 1 ∧
      m2.heap = MC1.heap ∧
      ∀ r2, chanClosedAt m2 r2 = chanClosedAt MC1 r2 :=
  C1_register_last_wins_no_close MC1 "u1" [0, 1] (by simp)
    (by
      intro r hr
      simp only [List.mem_cons, List.mem_singleton] at hr
      rcases hr with rfl | rfl | h
      · exact ⟨clientA, rfl, rfl⟩
      · exact ⟨clientB, rfl, rfl⟩
      · exact absurd h (List.not_mem_nil r))

/-- C1 counterexample: after the duplicate-login run `opsC1` the slot
for `"u1"` does hold the most recent handle (pointer 1), but the prior
handle's buffer is NOT closed (`chanClosedAt _ 0 = some false`), whereas
the claim asserts every previously registered handle's buffer has been
closed as part of its replacement. -/
theorem C1_counterexample :
    (runOps initManager opsC1).map
        (fun m2 => (lookupA m2.clients "u1", chanClosedAt m2 0)) =
      some (some 1, some false) := by decide

/-- C7: for a user_id with no registered handle, SendToUser takes the
`"Client %s not found or offline"` path: it reports not-connected, does
not panic (the result is `some`), and returns the state unchanged, so no
registered handle's buffer is modified. -/
theorem C7_send_offline_not_connected (m : Manager) (userID : String)
    (message : Message) (h : lookupA m.clients userID = none) :
    sendToUser m userID message = some (m, SendOutcome.notConnected) := by
  simp [sendToUser, h]

/-- C7 witness: sending to `"u1"` on the empty registry. -/
theorem C7_witness :
    sendToUser initManager "u1" msgA = some (initManager, SendOutcome.notConnected) :=
  C7_send_offline_not_connected initManager "u1" msgA rfl

/-- C9: SendToUser never mutates the membership map: whenever the call
completes, the association list of (user_id, handle) registrations in
the resulting state is exactly the input one, in all three outcomes;
only the target handle's buffer inside the heap can change. -/
theorem C9_sendToUser_preserves_membership (m m2 : Manager) (userID : String)
    (message : Message) (o : SendOutcome)
    (h : sendToUser m userID message = some (m2, o)) : m2.clients = m.clients := by
  unfold sendToUser at h
  split at h
  · simp only [Option.some.injEq, Prod.mk.injEq] at h
    rw [← h.1]
  · split at h
    · exact Option.noConfusion h
    · split at h
      · exact Option.noConfusion h
      · simp only [Option.some.injEq, Prod.mk.injEq] at h
        rw [← h.1]
      · simp only [Option.some.injEq, Prod.mk.injEq] at h
        rw [← h.1]

/-- C9 witness: a delivered send into `M9` leaves the membership list
exactly `[("u1", 0)]`. -/
theorem C9_witness :
    (Manager.mk [("u1", 0)]
        (hupdate M9.heap 0 ⟨"u1", "candidate", ⟨2, [jsonMarshal msgA], false⟩⟩)).clients =
      M9.clients :=
  C9_sendToUser_preserves_membership M9 _ "u1" msgA SendOutcome.delivered rfl

/-- C10: the registry enforces no non-empty `user_id` precondition: a
handle whose ID is the empty string registers like any other, after
which `IsUserConnected ""` is true and `""` appears in the
`GetConnectedUsers` snapshot. -/
theorem C10_empty_user_id_registers (m : Manager) (r : Nat) (c : ClientObj)
    (hc : hlookup m.heap r = some c) (hid : c.ID = "") :
    ∃ m2, registerStep m r = some m2 ∧ isUserConnected m2 "" = true ∧
      "" ∈ getConnectedUsers m2 := by
  refine ⟨{ m with clients := insertA m.clients "" r }, ?_, ?_, ?_⟩
  · simp [registerStep, hc, hid]
  · simp [isUserConnected, lookupA_insertA_self]
  · simp only [getConnectedUsers]
    exact lookupA_mem_keys _ _ _ (lookupA_insertA_self m.clients "" r)

/-- C2 (amended): the unregister arm checks only that SOME entry exists
under `client.ID` — never pointer identity — so unregistering a handle h
removes the slot for `h.user_id` whatever handle occupies it, and closes
h's OWN buffer.  After a stale unregister the user is disconnected
entirely (the newer handle is evicted from the map with its buffer left
open and unreachable), rather than the claimed no-op. -/
theorem C2_unregister_ignores_identity (m : Manager) (r r2 : Nat)
    (c : ClientObj) (hnodup : (m.clients.map Prod.fst).Nodup)
    (hc : hlookup m.heap r = some c)
    (hreg : lookupA m.clients c.ID = some r2)
    (hopen : c.Send.isClosed = false) :
    ∃ m2, unregisterStep m r = some m2 ∧
      isUserConnected m2 c.ID = false ∧
      chanClosedAt m2 r = some true ∧
      (r2 ≠ r → chanClosedAt m2 r2 = chanClosedAt m r2) := by
  refine ⟨⟨eraseA m.clients c.ID,
           hupdate m.heap r { c with Send := { c.Send with isClosed := true } }⟩,
    ?_, ?_, ?_, ?_⟩
  · simp [unregisterStep, hc, hreg, closeChan, hopen]
  · simp [isUserConnected, lookupA_eraseA_self m.clients c.ID hnodup]
  · simp only [chanClosedAt]
    rw [hlookup_hupdate_self m.heap r c
      { c with Send := { c.Send with isClosed := true } } hc]
    rfl
  · intro hne
    simp only [chanClosedAt]
    rw [hlookup_hupdate_ne m.heap r r2
      { c with Send := { c.Send with isClosed := true } } hne]

/-- C2 witness: unregistering the stale `clientA` (pointer 0) while
`clientB` (pointer 1) occupies the `"u1"` slot disconnects `"u1"`,
closes pointer 0's buffer, and leaves pointer 1's buffer state
untouched. -/
theorem C2_witness :
    ∃ m2, unregisterStep MC2 0 = some m2 ∧
      isUserConnected m2 "u1" = false ∧
      chanClosedAt m2 0 = some true ∧
      ((1 : Nat) ≠ 0 → chanClosedAt m2 1 = chanClosedAt MC2 1) :=
  C2_unregister_ignores_identity MC2 0 1 clientA (by decide) rfl rfl rfl

/-- C2 counterexample: running `opsC2` (register pointer 0 for `"u1"`,
register pointer 1 for `"u1"`, then unregister the stale pointer 0)
disconnects `"u1"` completely and closes pointer 0's buffer.  The claim
says this unregister must be a no-op leaving the newer handle (pointer 1)
registered, i.e. `isUserConnected _ "u1" = true`; the code yields
`false`. -/
theorem C2_counterexample :
    (runOps initManager opsC2).map
        (fun m2 => (isUserConnected m2 "u1", chanClosedAt m2 0, chanClosedAt m2 1)) =
      some (false, some true, some false) := by decide

/-- One delivered step of `SendToUser` into an open buffer with room. -/
theorem sendToUser_delivered_step (m : Manager) (u : String) (r : Nat)
    (c : ClientObj) (msg : Message) (hr : lookupA m.clients u = some r)
    (hc : hlookup m.heap r = some c) (hopen : c.Send.isClosed = false)
    (hroom : c.Send.buf.length < c.Send.cap) :
    sendToUser m u msg =
      some ({ m with heap := hupdate m.heap r (pushMsg c (jsonMarshal msg)) },
            SendOutcome.delivered) := by
  simp [sendToUser, hr, hc, trySend, hopen, hroom, pushMsg]

/-- Consecutive sends that all fit: every message lands, appended in call
order, and the membership map never changes. -/
theorem runSends_no_overflow (msgs : List Message) :
    ∀ (m : Manager) (u : String) (r : Nat) (c : ClientObj),
      lookupA m.clients u = some r → hlookup m.heap r = some c →
      c.Send.isClosed = false →
      c.Send.buf.length + msgs.length ≤ c.Send.cap →
      ∃ m2, runSends m u msgs =
          some (m2, List.replicate msgs.length SendOutcome.delivered) ∧
        m2.clients = m.clients ∧
        hlookup m2.heap r =
          some { c with Send := { c.Send with buf := c.Send.buf ++ msgs.map jsonMarshal } } := by
  induction msgs with
  | nil =>
    intro m u r c hr hc hopen hfit
    refine ⟨m, by simp [runSends], rfl, ?_⟩
    simpa using hc
  | cons msg rest ih =>
    intro m u r c hr hc hopen hfit
    have hroom : c.Send.buf.length < c.Send.cap := by
      simp only [List.length_cons] at hfit
      omega
    have hsend := sendToUser_delivered_step m u r c msg hr hc hopen hroom
    have hc1 : hlookup
        ({ m with heap := hupdate m.heap r (pushMsg c (jsonMarshal msg)) } : Manager).heap r =
        some (pushMsg c (jsonMarshal msg)) :=
      hlookup_hupdate_self m.heap r c _ hc
    have hfit1 : (pushMsg c (jsonMarshal msg)).Send.buf.length + rest.length ≤
        (pushMsg c (jsonMarshal msg)).Send.cap := by
      simp only [pushMsg, List.length_append, List.length_singleton]
      simp only [List.length_cons] at hfit
      omega
    obtain ⟨m2, hrun, hcl, hlook⟩ :=
      ih { m with heap := hupdate m.heap r (pushMsg c (jsonMarshal msg)) } u r
        (pushMsg c (jsonMarshal msg)) hr hc1 hopen hfit1
    refine ⟨m2, ?_, hcl, ?_⟩
    · simp only [runSends, hsend, hrun, List.length_cons, List.replicate_succ]
    · rw [hlook]
      simp [pushMsg, List.append_assoc]

/-- C8: for a connected user with a fresh (empty) buffer of capacity C
and N ≤ C messages sent consecutively by one caller via SendToUser, all
N sends are delivered and the buffer afterwards holds exactly the N
serialized messages in call order. -/
theorem C8_in_order_delivery (m : Manager) (u : String) (r : Nat)
    (c : ClientObj) (msgs : List Message) (hr : lookupA m.clients u = some r)
    (hc : hlookup m.heap r = some c) (hopen : c.Send.isClosed = false)
    (hbuf : c.Send.buf = []) (hN : msgs.length ≤ c.Send.cap) :
    ∃ m2, runSends m u msgs =
        some (m2, List.replicate msgs.length SendOutcome.delivered) ∧
      chanBufAt m2 r = some (msgs.map jsonMarshal) := by
  obtain ⟨m2, h1, _, h3⟩ := runSends_no_overflow msgs m u r c hr hc hopen
    (by rw [hbuf]; simpa using hN)
  refine ⟨m2, h1, ?_⟩
  simp [chanBufAt, h3, hbuf]

/-- C8 witness: both `msgA` and `msgB` land on `clientA`'s capacity-2
buffer in call order. -/
theorem C8_witness :
    ∃ m2, runSends M9 "u1" [msgA, msgB] =
        some (m2, List.replicate 2 SendOutcome.delivered) ∧
      chanBufAt m2 0 = some ([msgA, msgB].map jsonMarshal) :=
  C8_in_order_delivery M9 "u1" 0 clientA [msgA, msgB] rfl rfl rfl rfl (by decide)

/-- Consecutive sends to an open connected buffer never panic, never
touch the membership map, keep the buffer within its capacity, and
classify every message as delivered or dropped. -/
theorem runSends_bounded (msgs : List Message) :
    ∀ (m : Manager) (u : String) (r : Nat) (c : ClientObj),
      lookupA m.clients u = some r → hlookup m.heap r = some c →
      c.Send.isClosed = false → c.Send.buf.length ≤ c.Send.cap →
      ∃ m2 os c2, runSends m u msgs = some (m2, os) ∧
        m2.clients = m.clients ∧
        hlookup m2.heap r = some c2 ∧
        c2.Send.cap = c.Send.cap ∧
        os.length = msgs.length ∧
        os.count SendOutcome.delivered + os.count SendOutcome.dropped = msgs.length ∧
        c2.Send.buf.length = c.Send.buf.length + os.count SendOutcome.delivered ∧
        c2.Send.buf.length ≤ c.Send.cap := by
  induction msgs with
  | nil =>
    intro m u r c hr hc hopen hlen
    exact ⟨m, [], c, by simp [runSends], rfl, hc, rfl, rfl, rfl, by simp, hlen⟩
  | cons msg rest ih =>
    intro m u r c hr hc hopen hlen
    by_cases hroom : c.Send.buf.length < c.Send.cap
    · have hsend := sendToUser_delivered_step m u r c msg hr hc hopen hroom
      have hc1 : hlookup
          ({ m with heap := hupdate m.heap r (pushMsg c (jsonMarshal msg)) } : Manager).heap r =
          some (pushMsg c (jsonMarshal msg)) :=
        hlookup_hupdate_self m.heap r c _ hc
      have hlen1 : (pushMsg c (jsonMarshal msg)).Send.buf.length ≤
          (pushMsg c (jsonMarshal msg)).Send.cap := by
        simp only [pushMsg, List.length_append, List.length_singleton]
        omega
      obtain ⟨m2, os, c2, h1, h2, h3, h4, h5, h6, h7, h8⟩ :=
        ih { m with heap := hupdate m.heap r (pushMsg c (jsonMarshal msg)) } u r
          (pushMsg c (jsonMarshal msg)) hr hc1 hopen hlen1
      refine ⟨m2, SendOutcome.delivered :: os, c2, ?_, h2, h3, h4, ?_, ?_, ?_, h8⟩
      · simp only [runSends, hsend, h1]
      · simp [h5]
      · rw [List.count_cons_self,
          List.count_cons_of_ne (by decide : SendOutcome.dropped ≠ SendOutcome.delivered)]
        simp only [List.length_cons]
        omega
      · rw [List.count_cons_self]
        simp only [pushMsg, List.length_append, List.length_singleton] at h7
        omega
    · have hsend : sendToUser m u msg = some (m, SendOutcome.dropped) := by
        simp [sendToUser, hr, hc, trySend, hopen, hroom]
      obtain ⟨m2, os, c2, h1, h2, h3, h4, h5, h6, h7, h8⟩ := ih m u r c hr hc hopen hlen
      refine ⟨m2, SendOutcome.dropped :: os, c2, ?_, h2, h3, h4, ?_, ?_, ?_, h8⟩
      · simp only [runSends, hsend, h1]
      · simp [h5]
      · rw [List.count_cons_of_ne (by decide : SendOutcome.delivered ≠ SendOutcome.dropped),
          List.count_cons_self]
        simp only [List.length_cons]
        omega
      · rw [List.count_cons_of_ne (by decide : SendOutcome.delivered ≠ SendOutcome.dropped)]
        exact h7

/-- C6: sending N > C messages to a connected user with an open buffer
of capacity C whose consumer is not draining never blocks or panics
(every call completes with a `some` result immediately), retains at most
C messages in the buffer (nothing is queued past the bound), and reports
at least N − C of the sends as dropped. -/
theorem C6_overflow_drops (m : Manager) (u : String) (r : Nat)
    (c : ClientObj) (msgs : List Message) (hr : lookupA m.clients u = some r)
    (hc : hlookup m.heap r = some c) (hopen : c.Send.isClosed = false)
    (hlen : c.Send.buf.length ≤ c.Send.cap) (hN : c.Send.cap < msgs.length) :
    ∃ m2 os c2, runSends m u msgs = some (m2, os) ∧
      hlookup m2.heap r = some c2 ∧
      c2.Send.buf.length ≤ c.Send.cap ∧
      msgs.length - c.Send.cap ≤ os.count SendOutcome.dropped := by
  obtain ⟨m2, os, c2, h1, _, h3, _, _, h6, h7, h8⟩ :=
    runSends_bounded msgs m u r c hr hc hopen hlen
  exact ⟨m2, os, c2, h1, h3, h8, by omega⟩

/-- C6 witness: two messages into a connected capacity-1 empty buffer:
at most one is retained and at least one is reported dropped. -/
theorem C6_witness :
    ∃ m2 os c2, runSends MCap1 "u1" [msgA, msgB] = some (m2, os) ∧
      hlookup m2.heap 0 = some c2 ∧
      c2.Send.buf.length ≤ 1 ∧
      2 - 1 ≤ os.count SendOutcome.dropped :=
  C6_overflow_drops MCap1 "u1" 0
    ⟨"u1", "candidate", ⟨1, [], false⟩⟩ [msgA, msgB] rfl rfl rfl
    (by decide) (by decide)

/-- C3 (amended): the broadcast arm agrees with `SendToUser` on the
receiver named by `message.receiver_id` whenever the receiver is absent,
or present with an open buffer that has room.  (The two paths diverge
when the buffer is full — broadcast evicts and closes, `SendToUser` only
drops — and when `receiver_id` is empty, which broadcast ignores.) -/
theorem C3_broadcast_matches_send_unless_full (m : Manager) (message : Message)
    (hne : message.ReceiverID ≠ "")
    (hok : ∀ r c, lookupA m.clients message.ReceiverID = some r →
      hlookup m.heap r = some c →
      c.Send.isClosed = false ∧ c.Send.buf.length < c.Send.cap) :
    broadcastStep m message = sendToUserGo m message.ReceiverID message := by
  cases hl : lookupA m.clients message.ReceiverID with
  | none => simp [broadcastStep, sendToUserGo, sendToUser, hne, hl]
  | some r =>
    cases hc : hlookup m.heap r with
    | none => simp [broadcastStep, sendToUserGo, sendToUser, hne, hl, hc]
    | some c =>
      obtain ⟨hopen, hroom⟩ := hok r c hl hc
      simp [broadcastStep, sendToUserGo, sendToUser, hne, hl, hc, trySend, hopen, hroom]

/-- C3 witness: on `M9` (connected `"u1"`, empty capacity-2 buffer) a
broadcast of `msgA` and a direct send to `"u1"` produce the same
state. -/
theorem C3_witness :
    broadcastStep M9 msgA = sendToUserGo M9 msgA.ReceiverID msgA :=
  C3_broadcast_matches_send_unless_full M9 msgA (by decide)
    (fun r c hr hc => by
      cases Option.some.inj hr
      cases Option.some.inj hc
      exact ⟨rfl, by decide⟩)

/-- C3 counterexample: starting from the same reachable state (connected
`"u1"` whose capacity-1 buffer already holds one message), routing `msgB`
through the broadcast channel evicts the client — `"u1"` is no longer
connected and its buffer is closed — whereas `SendToUser "u1" msgB`
drops the message and leaves the client registered with an open buffer.
The two paths therefore do not leave the registry membership and target
buffer in the same resulting state, refuting functional identity. -/
theorem C3_counterexample :
    (runOps initManager (opsC3 ++ [Op.broadcast msgB])).map
        (fun m2 => (isUserConnected m2 "u1", chanClosedAt m2 0)) =
      some (false, some true) ∧
    (runOps initManager (opsC3 ++ [Op.send "u1" msgB])).map
        (fun m2 => (isUserConnected m2 "u1", chanClosedAt m2 0)) =
      some (true, some false) :=
  ⟨by decide, by decide⟩

/-- Well-formedness of the concrete one-client state `M9`. -/
theorem WF_M9 : WF M9 :=
  ⟨by decide, fun p hp => by
    cases List.mem_singleton.mp hp
    exact ⟨clientA, rfl, rfl, rfl⟩⟩

/-- C4 (amended): on well-formed states SendToUser always completes
without a panic and the three conditions are mutually distinguished —
but only by the log statement executed (modelled by `SendOutcome`): the
Go method itself is void, so nothing is returned to the caller.
Not-connected holds exactly when the target is absent; for a present
target, delivered holds exactly when the buffer has room (otherwise the
send is dropped). -/
theorem C4_tristate_only_logged (m : Manager) (userID : String)
    (message : Message) (hwf : WF m) :
    ∃ m2 o, sendToUser m userID message = some (m2, o) ∧
      (o = SendOutcome.notConnected ↔ lookupA m.clients userID = none) ∧
      (∀ r c, lookupA m.clients userID = some r → hlookup m.heap r = some c →
        (o = SendOutcome.delivered ↔ c.Send.buf.length < c.Send.cap)) := by
  cases hl : lookupA m.clients userID with
  | none =>
    refine ⟨m, SendOutcome.notConnected, by simp [sendToUser, hl], by simp, ?_⟩
    intro r c hr
    exact absurd hr (by simp)
  | some r =>
    obtain ⟨c, hc0, hcid, hopen⟩ := hwf.2 (userID, r) (lookupA_mem m.clients userID r hl)
    have hc : hlookup m.heap r = some c := hc0
    by_cases hroom : c.Send.buf.length < c.Send.cap
    · refine ⟨_, SendOutcome.delivered,
        sendToUser_delivered_step m userID r c message hl hc hopen hroom,
        by simp, ?_⟩
      intro r2 c2 hr2 hc2
      cases Option.some.inj hr2
      cases Option.some.inj (hc.symm.trans hc2)
      simp [hroom]
    · have hsend : sendToUser m userID message = some (m, SendOutcome.dropped) := by
        simp [sendToUser, hl, hc, trySend, hopen, hroom]
      refine ⟨m, SendOutcome.dropped, hsend, by simp, ?_⟩
      intro r2 c2 hr2 hc2
      cases Option.some.inj hr2
      cases Option.some.inj (hc.symm.trans hc2)
      simp [hroom]

/-- C4 witness: on the well-formed `M9` a send to `"u1"` completes and
its outcome classification matches the buffer state. -/
theorem C4_witness :
    ∃ m2 o, sendToUser M9 "u1" msgA = some (m2, o) ∧
      (o = SendOutcome.notConnected ↔ lookupA M9.clients "u1" = none) ∧
      (∀ r c, lookupA M9.clients "u1" = some r → hlookup M9.heap r = some c →
        (o = SendOutcome.delivered ↔ c.Send.buf.length < c.Send.cap)) :=
  C4_tristate_only_logged M9 "u1" msgA WF_M9

set_option maxRecDepth 8192 in
/-- C4 counterexample: the Go `SendToUser` is void — the caller-visible
result (`sendToUserGo`) is only the resulting state.  A not-connected
call on the empty registry and a buffer-full drop on `MFull` are
different conditions (per the instrumented log classification), yet in
both runs the caller receives exactly the unchanged state and no value
distinguishing them: no tri-state result value is returned to the
caller. -/
theorem C4_counterexample :
    sendToUserGo initManager "u1" msgB = some initManager ∧
    sendToUserGo MFull "u1" msgB = some MFull ∧
    (sendToUser initManager "u1" msgB).map Prod.snd = some SendOutcome.notConnected ∧
    (sendToUser MFull "u1" msgB).map Prod.snd = some SendOutcome.dropped :=
  ⟨by decide, by decide, by decide, by decide⟩

/-- C5 (amended): under the collaborator discipline the spec assumes —
fresh handles, registration of open handles only, unregistration only of
the current occupant (or of an empty slot) — every step of the registry
completes without panicking and preserves the invariant that all
registered buffers are open.  Since Go's `close` panics on an
already-closed channel, the absence of a panic in every close site
(unregister and broadcast eviction) is exactly the exactly-once closing
property; the stale-unregister counterexample shows that outside this
discipline a second close occurs and is a crash, not a safe no-op. -/
theorem C5_disciplined_steps_close_once (m : Manager) (op : Op) (hwf : WF m)
    (hd : DisciplinedStep m op) :
    ∃ m2, step m op = some m2 ∧ WF m2 := by
  cases op with
  | newClient r id role cap =>
    have hd2 : hlookup m.heap r = none := hd
    refine ⟨{ m with heap := m.heap ++ [(r, ⟨id, role, ⟨cap, [], false⟩⟩)] },
      ?_, hwf.1, ?_⟩
    · simp [step, newClientStep, hd2]
    · intro p hp
      obtain ⟨c, hcp, hidp, hopenp⟩ := hwf.2 p hp
      exact ⟨c, hlookup_append_left m.heap _ p.2 c hcp, hidp, hopenp⟩
  | register r =>
    obtain ⟨c, hc, hopen⟩ := hd
    refine ⟨{ m with clients := insertA m.clients c.ID r }, ?_,
      keys_insertA_nodup m.clients c.ID r hwf.1, ?_⟩
    · simp [step, registerStep, hc]
    · intro p hp
      rcases mem_insertA m.clients c.ID r p hp with h | h
      · cases h
        exact ⟨c, hc, rfl, hopen⟩
      · exact hwf.2 p h
  | unregister r =>
    obtain ⟨c, hc, hcur⟩ := hd
    rcases hcur with hnone | hsome
    · exact ⟨m, by simp [step, unregisterStep, hc, hnone], hwf⟩
    · obtain ⟨c2, hc2, hid2, hopen2⟩ :=
        hwf.2 (c.ID, r) (lookupA_mem m.clients c.ID r hsome)
      have hcc : c2 = c := Option.some.inj (hc2.symm.trans hc)
      subst hcc
      refine ⟨⟨eraseA m.clients c2.ID,
          hupdate m.heap r ⟨c2.ID, c2.Role, ⟨c2.Send.cap, c2.Send.buf, true⟩⟩⟩, ?_, ?_⟩
      · simp [step, unregisterStep, hc, hsome, closeChan, hopen2]
      · exact WF_evict m r c2 ⟨c2.ID, c2.Role, ⟨c2.Send.cap, c2.Send.buf, true⟩⟩
          hwf hc hsome
  | broadcast message =>
    by_cases hrecv : message.ReceiverID = ""
    · exact ⟨m, by simp [step, broadcastStep, hrecv], hwf⟩
    · cases hl : lookupA m.clients message.ReceiverID with
      | none => exact ⟨m, by simp [step, broadcastStep, hrecv, hl], hwf⟩
      | some r =>
        obtain ⟨c, hc0, hcid0, hopen⟩ :=
          hwf.2 (message.ReceiverID, r) (lookupA_mem m.clients message.ReceiverID r hl)
        have hc : hlookup m.heap r = some c := hc0
        have hcid : c.ID = message.ReceiverID := hcid0
        by_cases hroom : c.Send.buf.length < c.Send.cap
        · refine ⟨{ m with heap := hupdate m.heap r (pushMsg c (jsonMarshal message)) },
            ?_, ?_⟩
          · simp [step, broadcastStep, hrecv, hl, hc, trySend, hopen, hroom, pushMsg]
          · exact WF_hupdate m r c (pushMsg c (jsonMarshal message)) hwf hc rfl hopen
        · refine ⟨⟨eraseA m.clients c.ID,
              hupdate m.heap r ⟨c.ID, c.Role, ⟨c.Send.cap, c.Send.buf, true⟩⟩⟩, ?_, ?_⟩
          · simp [step, broadcastStep, hrecv, hl, hc, trySend, hopen, hroom, closeChan]
          · exact WF_evict m r c ⟨c.ID, c.Role, ⟨c.Send.cap, c.Send.buf, true⟩⟩
              hwf hc (by rw [hcid]; exact hl)
  | send userID message =>
    cases hl : lookupA m.clients userID with
    | none => exact ⟨m, by simp [step, sendToUserGo, sendToUser, hl], hwf⟩
    | some r =>
      obtain ⟨c, hc0, hcid0, hopen⟩ :=
        hwf.2 (userID, r) (lookupA_mem m.clients userID r hl)
      have hc : hlookup m.heap r = some c := hc0
      by_cases hroom : c.Send.buf.length < c.Send.cap
      · refine ⟨{ m with heap := hupdate m.heap r (pushMsg c (jsonMarshal message)) },
          ?_, ?_⟩
        · simp [step, sendToUserGo, sendToUser, hl, hc, trySend, hopen, hroom, pushMsg]
        · exact WF_hupdate m r c (pushMsg c (jsonMarshal message)) hwf hc rfl hopen
      · exact ⟨m, by simp [step, sendToUserGo, sendToUser, hl, hc, trySend, hopen, hroom],
          hwf⟩

/-- C5 witness: a disciplined unregister of the current occupant of
`"u1"` on the well-formed `M9` completes (closing the buffer once) and
preserves the invariant. -/
theorem C5_witness :
    ∃ m2, step M9 (Op.unregister 0) = some m2 ∧ WF m2 :=
  C5_disciplined_steps_close_once M9 (Op.unregister 0) WF_M9
    ⟨clientA, rfl, Or.inr rfl⟩

/-- C5 counterexample: in the run `opsC5` the first unregister closes
handle 0's buffer (shown on the 5-step prefix), and the second, stale
unregister of handle 0 — legal per the claim's "every interleaving of
registry operations on the same user_id" — reaches `close` on the
already-closed channel: the run panics (`none`).  A second close of the
same buffer is a crash, not a safe no-op. -/
theorem C5_counterexample :
    (runOps initManager (opsC5.take 5)).map (fun m2 => chanClosedAt m2 0) =
      some (some true) ∧
    runOps initManager opsC5 = none :=
  ⟨by decide, by decide⟩

/-- C10 witness: a concrete handle with empty ID at pointer 7. -/
theorem C10_witness :
    ∃ m2, registerStep
        { clients := [],
          heap := [(7, { ID := "", Role := "candidate",
                         Send := { cap := 2, buf := [], isClosed := false } })] } 7 =
        some m2 ∧
      isUserConnected m2 "" = true ∧ "" ∈ getConnectedUsers m2 :=
  C10_empty_user_id_registers _ 7 _ rfl rfl

end SkillSync
